import Mathlib

/-!
# Verification of the bilibili-fav-backup reconciliation engine

Shallow embedding of `src/background.js`: the per-collection full and
incremental backup routines, the sweeps over all collections, the
negative cache of known-invalid video ids, and the per-video detail
classifier `getMediaInfo`.

Modelling conventions:
* JavaScript objects used as string-keyed maps become functions
  `String → Option _`; the map of all collections (`all_medias`) becomes
  `Nat → Option _` keyed by the collection id (the source writes mirror
  keys with numeric fav ids and reads them back through `parseInt`).
* The paginated fetch in `backupOneFavFull` is modelled by its
  accumulated result: the list of raw page items together with the
  declared `media_count` carried by the (last) page's `info` object.
* `fetch`/JSON transport failures surface as `Option`/`Except` values;
  a thrown exception that happens after a storage write is modelled by
  returning the written state together with the error.
-/

namespace FavBackup

/-- Owner (`up`/`upper`) information: uploader id and name. -/
structure Owner where
  mid : Int
  name : String
deriving DecidableEq, Repr

/-- A backed-up media record as the source stores it in the mirror.
Matches the JS objects produced by `backupOneFavFull`'s page projection,
by `getMediaInfo`, and the bare `{ attr }` markers `getMediaInfo`
returns for unavailable videos (hence the optional fields). -/
structure Media where
  attr : Int
  bvid : Option String := none
  avid : Option Int := none
  title : Option String := none
  upMid : Option Int := none
  upName : Option String := none
deriving DecidableEq, Repr

/-- A raw item of the paginated favourites listing
(`API_LIST_MEDIA` response), restricted to the fields the source reads:
`bvid`, `id`, `title`, `attr`, `upper?`. -/
structure RawMedia where
  bvid : String
  id : Int
  title : String
  attr : Int
  upper : Option Owner := none
deriving DecidableEq, Repr

/-- The projection `backupOneFavFull` applies to each page item
(`media.bvid / media.id / media.title / media.attr / media.upper?.mid /
media.upper?.name`). -/
def toBackup (m : RawMedia) : Media :=
  { attr := m.attr
    bvid := some m.bvid
    avid := some m.id
    title := some m.title
    upMid := m.upper.map Owner.mid
    upName := m.upper.map Owner.name }

/-- One entry of the user's favourites-list registry (`favlist`),
restricted to the fields `saveFavList` stores. -/
structure Fav where
  id : Nat
  cnt : Nat
  mid : Int
  title : String
deriving DecidableEq, Repr

/-- The complete remote enumeration a full sync accumulates for one
collection: every page item in order, plus the `info.media_count`
declared by the (final) page response. -/
structure RemoteFull where
  mediaList : List RawMedia
  declaredCount : Nat
deriving DecidableEq, Repr

/-- The persisted engine state: the four durable storage keys the engine
writes (`all_medias`, `invalid_ids`, `favlist`,
`last_full_backup_time`). -/
structure EngineState where
  backedUpFavs : Nat → Option (String → Option Media)
  invalidIds : String → Bool
  favlist : List Fav
  lastFullBackupTime : Option Nat

/-- Errors thrown by the per-collection backup routines. -/
inductive SyncError where
  | syncAnomaly
  | detailFailures
deriving DecidableEq, Repr

/-- The mirror map of one collection, `{}` when the collection has no
backup yet (`backedUpFavs[favId] || {}`). -/
def favMirror (st : EngineState) (d : Nat) : String → Option Media :=
  (st.backedUpFavs d).getD (fun _ => none)

/-- The staging loop of `backupOneFavFull`: starting from an empty
`updates` object, stage each enumerated item — an intact item
(`attr === 0`) is stored under its `bvid` (projected remote copy), an
invalid one re-stages the existing mirror record for its `bvid` when
one exists and is otherwise skipped. -/
def stageFull (prior : String → Option Media) (l : List RawMedia) :
    String → Option Media :=
  l.foldl
    (fun updates m =>
      if m.attr = 0 then
        fun b => if b = m.bvid then some (toBackup m) else updates b
      else if (prior m.bvid).isSome then
        fun b => if b = m.bvid then prior m.bvid else updates b
      else updates)
    (fun _ => none)

/-- The negative-cache update of `backupOneFavFull`: every enumerated
invalid item's `bvid` is added to `invalid_ids` (the staging loop's
`invalidIds.add(media.bvid)` calls, expressed as one membership test). -/
def markInvalid (inv : String → Bool) (l : List RawMedia) : String → Bool :=
  fun b => inv b || l.any (fun m => decide (m.attr ≠ 0) && m.bvid == b)

/-- `backupOneFavFull(favId)`: full backup of one collection.  Aborts
with the anomaly error when the enumeration is empty although the
declared item count is nonzero (leaving storage untouched); otherwise
replaces the collection's mirror map with the staged map, extends the
negative cache, and leaves every other collection's entry unchanged.
The returned state is the storage content after the call; the optional
error is the exception the JS function throws. -/
def backupOneFavFull (favId : Nat) (remote : RemoteFull) (st : EngineState) :
    EngineState × Option SyncError :=
  if remote.mediaList = [] ∧ 0 < remote.declaredCount then
    (st, some .syncAnomaly)
  else
    let updates := stageFull (favMirror st favId) remote.mediaList
    ({ st with
        backedUpFavs := fun d => if d = favId then some updates else st.backedUpFavs d
        invalidIds := markInvalid st.invalidIds remote.mediaList },
      none)

end FavBackup

namespace FavBackup

/-! ## Pointwise characterization of the full-sync staging loop -/

/-- The staging step restricted to the occurrences of a single key:
`pb` is the prior mirror value at that key, `acc` the staged value so
far, and the list holds the enumerated items carrying that key. -/
def stageAtOcc (pb : Option Media) : Option Media → List RawMedia → Option Media
  | acc, [] => acc
  | acc, m :: ms =>
      stageAtOcc pb
        (if m.attr = 0 then some (toBackup m)
         else if pb.isSome then pb else acc) ms

/-- The last element of a list, preferring later elements. -/
def lastElem : List RawMedia → Option RawMedia
  | [] => none
  | m :: ms =>
      match lastElem ms with
      | some m' => some m'
      | none => some m

/-- The last intact (`attr = 0`) element of a list. -/
def lastActive : List RawMedia → Option RawMedia
  | [] => none
  | m :: ms =>
      match lastActive ms with
      | some m' => some m'
      | none => if m.attr = 0 then some m else none

theorem stageFull_apply (prior : String → Option Media) (l : List RawMedia)
    (acc : String → Option Media) (b : String) :
    (l.foldl
      (fun updates m =>
        if m.attr = 0 then
          fun x => if x = m.bvid then some (toBackup m) else updates x
        else if (prior m.bvid).isSome then
          fun x => if x = m.bvid then prior m.bvid else updates x
        else updates) acc) b
      = stageAtOcc (prior b) (acc b) (l.filter (fun m => m.bvid == b)) := by
  induction l generalizing acc with
  | nil => rfl
  | cons m ms ih =>
      simp only [List.foldl_cons, List.filter_cons]
      by_cases hb : m.bvid = b
      · subst hb
        simp only [beq_self_eq_true, if_pos]
        rw [ih]
        conv_rhs => rw [stageAtOcc]
        congr 1
        by_cases ha : m.attr = 0
        · simp [ha]
        · by_cases hp : (prior m.bvid).isSome <;> simp [ha, hp]
      · have hbeq : (m.bvid == b) = false := beq_eq_false_iff_ne.mpr hb
        simp only [hbeq, Bool.false_eq_true, if_neg, Bool.not_eq_true]
        rw [ih]
        congr 1
        by_cases ha : m.attr = 0
        · simp [ha, Ne.symm hb]
        · by_cases hp : (prior m.bvid).isSome <;> simp [ha, hp, Ne.symm hb]

theorem stageFull_eq (prior : String → Option Media) (l : List RawMedia)
    (b : String) :
    stageFull prior l b
      = stageAtOcc (prior b) none (l.filter (fun m => m.bvid == b)) := by
  unfold stageFull
  exact stageFull_apply prior l (fun _ => none) b

theorem stageAtOcc_pb_none (os : List RawMedia) (acc : Option Media) :
    stageAtOcc none acc os
      = match lastActive os with
        | some m' => some (toBackup m')
        | none => acc := by
  induction os generalizing acc with
  | nil => rfl
  | cons m ms ih =>
      rw [stageAtOcc, ih]
      by_cases ha : m.attr = 0 <;>
        cases hms : lastActive ms <;> simp [lastActive, hms, ha]

theorem stageAtOcc_pb_some (os : List RawMedia) (acc : Option Media) (r : Media) :
    stageAtOcc (some r) acc os
      = match lastElem os with
        | some m => if m.attr = 0 then some (toBackup m) else some r
        | none => acc := by
  induction os generalizing acc with
  | nil => rfl
  | cons m ms ih =>
      rw [stageAtOcc, ih]
      by_cases ha : m.attr = 0 <;>
        cases hms : lastElem ms <;> simp [lastElem, hms, ha]

theorem lastElem_eq_none (os : List RawMedia) : lastElem os = none ↔ os = [] := by
  cases os with
  | nil => simp [lastElem]
  | cons m ms =>
      simp only [lastElem]
      cases lastElem ms <;> simp

theorem lastActive_of_lastElem (os : List RawMedia) (m : RawMedia)
    (h : lastElem os = some m) (ha : m.attr = 0) : lastActive os = some m := by
  induction os with
  | nil => simp [lastElem] at h
  | cons a as ih =>
      cases has : lastElem as with
      | some m' =>
          simp only [lastElem, has, Option.some.injEq] at h
          subst h
          simp [lastActive, ih has]
      | none =>
          have hnil : as = [] := (lastElem_eq_none as).mp has
          subst hnil
          simp only [lastElem, Option.some.injEq] at h
          subst h
          simp [lastActive, ha]

theorem stageAtOcc_idem (os : List RawMedia) (pb : Option Media) :
    stageAtOcc (stageAtOcc pb none os) none os = stageAtOcc pb none os := by
  cases pb with
  | none =>
      rw [stageAtOcc_pb_none]
      cases hla : lastActive os with
      | none => rw [stageAtOcc_pb_none, hla]
      | some m' =>
          rw [stageAtOcc_pb_some]
          cases hle : lastElem os with
          | none =>
              have : os = [] := (lastElem_eq_none os).mp hle
              subst this
              simp [lastActive] at hla
          | some m'' =>
              by_cases ha : m''.attr = 0
              · have : lastActive os = some m'' := lastActive_of_lastElem os m'' hle ha
                rw [hla] at this
                simp only [Option.some.injEq] at this
                subst this
                simp [ha]
              · simp [ha]
  | some r =>
      rw [stageAtOcc_pb_some]
      cases hle : lastElem os with
      | none =>
          have : os = [] := (lastElem_eq_none os).mp hle
          subst this
          rfl
      | some m =>
          by_cases ha : m.attr = 0
      
          · simp only [ha, if_true]
            rw [stageAtOcc_pb_some, hle]
            simp [ha]
          · simp only [ha, if_false]
            rw [stageAtOcc_pb_some, hle]
            simp [ha]

theorem stageFull_idem (prior : String → Option Media) (l : List RawMedia)
    (b : String) :
    stageFull (stageFull prior l) l b = stageFull prior l b := by
  rw [stageFull_eq, stageFull_eq]
  exact stageAtOcc_idem _ (prior b)

theorem filter_bvid_eq_single (l : List RawMedia)
    (hnd : (l.map RawMedia.bvid).Nodup) (m : RawMedia) (hm : m ∈ l) :
    l.filter (fun x => x.bvid == m.bvid) = [m] := by
  induction l with
  | nil => simp at hm
  | cons a as ih =>
      simp only [List.map_cons, List.nodup_cons, List.mem_map] at hnd
      rcases List.mem_cons.mp hm with rfl | hmem
      · have hnil : as.filter (fun x => x.bvid == m.bvid) = [] := by
          rw [List.filter_eq_nil_iff]
          intro x hx
          simp only [beq_iff_eq]
          intro hxe
          exact hnd.1 ⟨x, hx, hxe⟩
        simp [List.filter_cons, hnil]
      · have hne : a.bvid ≠ m.bvid := by
          intro he
          exact hnd.1 ⟨m, hmem, he.symm⟩
        have hbeq : (a.bvid == m.bvid) = false := beq_eq_false_iff_ne.mpr hne
        simp only [List.filter_cons, hbeq, Bool.false_eq_true, if_neg,
          Bool.not_eq_true]
        exact ih hnd.2 hmem

theorem filter_bvid_eq_nil (l : List RawMedia) (b : String)
    (h : ∀ m ∈ l, m.bvid ≠ b) :
    l.filter (fun x => x.bvid == b) = [] := by
  rw [List.filter_eq_nil_iff]
  intro x hx
  simp only [beq_iff_eq]
  exact h x hx

/-- Unfolding of a successful full sync: the guard is false and the
returned state is the staged replacement. -/
theorem backupOneFavFull_ok (favId : Nat) (remote : RemoteFull)
    (st st' : EngineState)
    (h : backupOneFavFull favId remote st = (st', none)) :
    ¬(remote.mediaList = [] ∧ 0 < remote.declaredCount) ∧
    st' = { st with
        backedUpFavs := fun d =>
          if d = favId then some (stageFull (favMirror st favId) remote.mediaList)
          else st.backedUpFavs d
        invalidIds := markInvalid st.invalidIds remote.mediaList } := by
  by_cases hg : remote.mediaList = [] ∧ 0 < remote.declaredCount
  · rw [backupOneFavFull, if_pos hg] at h
    exact absurd (congrArg Prod.snd h) (by simp)
  · rw [backupOneFavFull, if_neg hg] at h
    exact ⟨hg, (congrArg Prod.fst h).symm⟩

/-- The mirror entry a successful full sync leaves for the synced
collection: the staged map computed from the prior mirror and the
enumeration. -/
theorem backupOneFavFull_ok_mirror (favId : Nat) (remote : RemoteFull)
    (st st' : EngineState)
    (h : backupOneFavFull favId remote st = (st', none)) :
    st'.backedUpFavs favId
      = some (stageFull (favMirror st favId) remote.mediaList) := by
  obtain ⟨hg, rfl⟩ := backupOneFavFull_ok favId remote st st' h
  simp

/-! ## Claims about full sync of one collection -/

/-- C3: when full-sync pagination accumulates zero items while the
declared item count is nonzero, `backupOneFavFull` fails with the
sync-anomaly error and leaves the whole stored state — in particular the
collection's mirror mapping — exactly as it was (no write happens). -/
theorem full_sync_anomaly_guard (favId : Nat) (remote : RemoteFull)
    (st : EngineState) (h1 : remote.mediaList = [])
    (h2 : 0 < remote.declaredCount) :
    backupOneFavFull favId remote st = (st, some SyncError.syncAnomaly) := by
  rw [backupOneFavFull, if_pos ⟨h1, h2⟩]

/-- C1: a successful full sync replaces the collection's mirror with
exactly the staged map — each enumerated intact item maps to its freshly
fetched (projected) remote record, each enumerated invalid item maps to
the pre-existing mirror record for its id (absent when none existed, so
invalid records are never fabricated or refreshed from the remote), and
every id not enumerated is absent. -/
theorem full_sync_staged_map (favId : Nat) (remote : RemoteFull)
    (st st' : EngineState)
    (hnd : (remote.mediaList.map RawMedia.bvid).Nodup)
    (h : backupOneFavFull favId remote st = (st', none)) :
    (st'.backedUpFavs favId).isSome = true ∧
    (∀ m ∈ remote.mediaList, m.attr = 0 →
        favMirror st' favId m.bvid = some (toBackup m)) ∧
    (∀ m ∈ remote.mediaList, m.attr ≠ 0 →
        favMirror st' favId m.bvid = favMirror st favId m.bvid) ∧
    (∀ b, (∀ m ∈ remote.mediaList, m.bvid ≠ b) →
        favMirror st' favId b = none) := by
  obtain ⟨hg, rfl⟩ := backupOneFavFull_ok favId remote st st' h
  have hm : favMirror
      { st with
          backedUpFavs := fun d =>
            if d = favId then some (stageFull (favMirror st favId) remote.mediaList)
            else st.backedUpFavs d
          invalidIds := markInvalid st.invalidIds remote.mediaList } favId
      = stageFull (favMirror st favId) remote.mediaList := by
    simp [favMirror]
  refine ⟨by simp, ?_, ?_, ?_⟩
  · intro m hmem ha
    rw [hm, stageFull_eq, filter_bvid_eq_single remote.mediaList hnd m hmem]
    simp [stageAtOcc, ha]
  · intro m hmem ha
    rw [hm, stageFull_eq, filter_bvid_eq_single remote.mediaList hnd m hmem]
    cases hp : favMirror st favId m.bvid <;> simp [stageAtOcc, ha, hp]
  · intro b hb
    rw [hm, stageFull_eq, filter_bvid_eq_nil remote.mediaList b hb]
    rfl

/-- C2: per-collection full sync is idempotent — if a full sync of a
collection succeeded, re-running it against the same unchanged remote
enumeration succeeds again and leaves that collection's mirror mapping
identical. -/
theorem full_sync_idempotent (favId : Nat) (remote : RemoteFull)
    (st st1 : EngineState)
    (h : backupOneFavFull favId remote st = (st1, none)) :
    (backupOneFavFull favId remote st1).2 = none ∧
    (backupOneFavFull favId remote st1).1.backedUpFavs favId
      = st1.backedUpFavs favId := by
  have h2none : (backupOneFavFull favId remote st1).2 = none := by
    obtain ⟨hg, rfl⟩ := backupOneFavFull_ok favId remote st st1 h
    simp [backupOneFavFull, hg]
  refine ⟨h2none, ?_⟩
  have hpair : backupOneFavFull favId remote st1
      = ((backupOneFavFull favId remote st1).1, none) := by
    rw [← h2none]
  have hm2 := backupOneFavFull_ok_mirror favId remote st1 _ hpair
  have hm1 := backupOneFavFull_ok_mirror favId remote st st1 h
  rw [hm2, hm1]
  have hfm : favMirror st1 favId
      = stageFull (favMirror st favId) remote.mediaList := by
    rw [favMirror, hm1, Option.getD_some]
  rw [hfm]
  congr 1
  funext b
  exact stageFull_idem (favMirror st favId) remote.mediaList b

/-! ## Concrete fixtures used by the witnesses -/

/-- Fixture: an intact remote item. -/
def rawA : RawMedia :=
  { bvid := "bk1", id := 10, title := "titleA", attr := 0,
    upper := some { mid := 5, name := "up5" } }

/-- Fixture: an invalid remote item. -/
def rawR : RawMedia := { bvid := "bk2", id := 20, title := "gone", attr := 9 }

/-- Fixture: the previously mirrored record of the invalid item. -/
def mediaOld : Media :=
  { attr := 0, bvid := some "bk2", avid := some 20, title := some "oldTitle",
    upMid := some 5, upName := some "up5" }

/-- Fixture: a state whose collection 1 already mirrors `mediaOld`. -/
def stTest : EngineState :=
  { backedUpFavs := fun d =>
      if d = 1 then some (fun b => if b = "bk2" then some mediaOld else none)
      else none
    invalidIds := fun _ => false
    favlist := []
    lastFullBackupTime := none }

/-- Fixture: a remote enumeration for collection 1. -/
def remoteTest : RemoteFull := { mediaList := [rawA, rawR], declaredCount := 2 }

theorem full_sync_anomaly_guard_witness :
    ((⟨[], 5⟩ : RemoteFull).mediaList = [] ∧
      0 < (⟨[], 5⟩ : RemoteFull).declaredCount) ∧
    backupOneFavFull 1 ⟨[], 5⟩ stTest = (stTest, some SyncError.syncAnomaly) :=
  ⟨⟨rfl, by decide⟩, full_sync_anomaly_guard 1 ⟨[], 5⟩ stTest rfl (by decide)⟩

theorem full_sync_staged_map_witness :
    (remoteTest.mediaList.map RawMedia.bvid).Nodup ∧
    ((((backupOneFavFull 1 remoteTest stTest).1).backedUpFavs 1).isSome = true ∧
      (∀ m ∈ remoteTest.mediaList, m.attr = 0 →
        favMirror (backupOneFavFull 1 remoteTest stTest).1 1 m.bvid
          = some (toBackup m)) ∧
      (∀ m ∈ remoteTest.mediaList, m.attr ≠ 0 →
        favMirror (backupOneFavFull 1 remoteTest stTest).1 1 m.bvid
          = favMirror stTest 1 m.bvid) ∧
      (∀ b, (∀ m ∈ remoteTest.mediaList, m.bvid ≠ b) →
        favMirror (backupOneFavFull 1 remoteTest stTest).1 1 b = none)) :=
  ⟨by decide, full_sync_staged_map 1 remoteTest stTest _ (by decide) rfl⟩

theorem full_sync_idempotent_witness :
    (backupOneFavFull 1 remoteTest
        ((backupOneFavFull 1 remoteTest stTest).1)).2 = none ∧
    (backupOneFavFull 1 remoteTest
        ((backupOneFavFull 1 remoteTest stTest).1)).1.backedUpFavs 1
      = ((backupOneFavFull 1 remoteTest stTest).1).backedUpFavs 1 :=
  full_sync_idempotent 1 remoteTest stTest _ rfl

/-! ## The per-video detail endpoint (`getMediaInfo`) -/

/-- Payload of the single-video info endpoint (`API_GET_MEDIA_INFO`),
restricted to the fields the source reads. -/
structure ViewData where
  bvid : String
  aid : Int
  title : String
  owner : Option Owner := none
deriving DecidableEq, Repr

/-- A response of the single-video info endpoint: the catalog `code`
and, when present, the payload. -/
structure ViewResp where
  code : Int
  data : Option ViewData := none
deriving DecidableEq, Repr

/-- Errors `getMediaInfo` throws: a non-success catalog code it does not
special-case, or a payload without the expected shape. -/
inductive DetailError where
  | transport (code : Int)
  | schema
deriving DecidableEq, Repr

/-- `getMediaInfo`: classification of one video-info response.  The
catalog codes -404 (deleted for unspecified reasons), 62002 (removed by
its owner) and 62012 (visible to its owner only) are mapped to bare
status markers, any other non-success code is thrown as a request
error, and a success response must carry `data` with `owner`. -/
def getMediaInfo (res : ViewResp) : Except DetailError Media :=
  if res.code ≠ 0 then
    if res.code = -404 then .ok { attr := 1 }
    else if res.code = 62002 then .ok { attr := 9 }
    else if res.code = 62012 then .ok { attr := -1 }
    else .error (.transport res.code)
  else
    match res.data with
    | none => .error .schema
    | some d =>
        match d.owner with
        | none => .error .schema
        | some o =>
            .ok { attr := 0, bvid := some d.bvid, avid := some d.aid,
                  title := some d.title, upMid := some o.mid,
                  upName := some o.name }

/-- C9 counterexample: the owner-only-visibility code 62012 is a
non-success catalog code that is neither the not-found code (-404) nor
the removed-by-owner code (62002), yet `getMediaInfo` does not raise a
transport error there — it returns the `attr = -1` marker. -/
theorem getMediaInfo_62012_not_error :
    ((62012 : Int) ≠ 0 ∧ (62012 : Int) ≠ -404 ∧ (62012 : Int) ≠ 62002) ∧
    getMediaInfo { code := 62012 } = Except.ok { attr := -1 } := by
  refine ⟨by decide, ?_⟩
  rfl

/-- C9 (amended): `getMediaInfo` returns the not-found and
removed-by-owner responses as removed markers without a title, returns
the owner-only-visibility code 62012 as an `attr = -1` marker without a
title, raises a transport error on every other non-success code, and
returns the full record with remote title and owner on a well-shaped
success response. -/
theorem getMediaInfo_classification (res : ViewResp) :
    (res.code = -404 → getMediaInfo res = Except.ok { attr := 1 }) ∧
    (res.code = 62002 → getMediaInfo res = Except.ok { attr := 9 }) ∧
    (res.code = 62012 → getMediaInfo res = Except.ok { attr := -1 }) ∧
    (res.code ≠ 0 → res.code ≠ -404 → res.code ≠ 62002 → res.code ≠ 62012 →
      getMediaInfo res = Except.error (DetailError.transport res.code)) ∧
    (∀ d o, res.code = 0 → res.data = some d → d.owner = some o →
      getMediaInfo res
        = Except.ok { attr := 0, bvid := some d.bvid, avid := some d.aid,
                      title := some d.title, upMid := some o.mid,
                      upName := some o.name }) := by
  refine ⟨?_, ?_, ?_, ?_, ?_⟩
  · intro h
    simp [getMediaInfo, h]
  · intro h
    simp [getMediaInfo, h]
  · intro h
    simp [getMediaInfo, h]
  · intro h0 h1 h2 h3
    simp [getMediaInfo, h0, h1, h2, h3]
  · intro d o h0 hd ho
    simp [getMediaInfo, h0, hd, ho]

theorem getMediaInfo_classification_witness :
    ((62002 : Int) = 62002) ∧
    getMediaInfo { code := 62002 } = Except.ok { attr := 9 } :=
  ⟨rfl, (getMediaInfo_classification { code := 62002 }).2.1 rfl⟩

/-! ## Incremental sync of one collection (`backupOneFavIncr`) -/

/-- The candidate set of an incremental pass: the fetched ids with the
ids already present in the collection's mirror and the ids of the
negative cache filtered out
(`ids.filter(bvid => !backedUpFav[bvid] && !invalidIds.has(bvid))`). -/
def incrCandidates (favId : Nat) (ids : List String) (st : EngineState) :
    List String :=
  ids.filter (fun b => (favMirror st favId b).isNone && !st.invalidIds b)

/-- Accumulator of the incremental detail loop: the staged insertions,
the (growing) negative cache, and the ids whose detail fetch failed. -/
structure IncrAcc where
  inserts : String → Option Media
  invalid : String → Bool
  errorIds : List String

/-- One iteration of the incremental detail loop: fetch the candidate's
detail (`view b = none` models a failed request); an intact result is
staged for insertion under the candidate id, an unavailable one is added
to the negative cache, and a thrown error records the id as failed. -/
def incrStep (view : String → Option ViewResp) (acc : IncrAcc) (b : String) :
    IncrAcc :=
  match view b with
  | none => { acc with errorIds := acc.errorIds ++ [b] }
  | some resp =>
      match getMediaInfo resp with
      | .error _ => { acc with errorIds := acc.errorIds ++ [b] }
      | .ok mi =>
          if mi.attr = 0 then
            { acc with inserts := fun x => if x = b then some mi else acc.inserts x }
          else
            { acc with invalid := fun x => if x = b then true else acc.invalid x }

/-- The incremental detail loop over the candidate set, starting from no
staged insertions and the stored negative cache. -/
def incrLoop (view : String → Option ViewResp) (invalid0 : String → Bool)
    (cands : List String) : IncrAcc :=
  cands.foldl (incrStep view) { inserts := fun _ => none, invalid := invalid0, errorIds := [] }

/-- The JS object-spread merge `{ ...backedUpFav, ...inserts }`: staged
insertions override, every other key keeps its prior record. -/
def spreadMerge (prior inserts : String → Option Media) :
    String → Option Media :=
  fun b =>
    match inserts b with
    | some m => some m
    | none => prior b

/-- The non-escalating path of `backupOneFavIncr`: run the detail loop
over the candidates, merge the staged insertions into the collection's
mirror (union, no deletions), persist mirror and negative cache
together, and only then throw when some detail fetches failed (the
write happens even on that error path). -/
def incrNoEscalate (favId : Nat) (ids : List String)
    (view : String → Option ViewResp) (st : EngineState) :
    EngineState × Option SyncError :=
  let acc := incrLoop view st.invalidIds (incrCandidates favId ids st)
  ({ st with
      backedUpFavs := fun d =>
        if d = favId then some (spreadMerge (favMirror st favId) acc.inserts)
        else st.backedUpFavs d
      invalidIds := acc.invalid },
    if acc.errorIds = [] then none else some .detailFailures)

/-- `backupOneFavIncr(favId)`: incremental backup of one collection.
Fetches the collection's id list (`ids`), filters the candidates, and
escalates to a full backup when the candidates would cost more requests
than full pagination (`ids.length > Math.ceil(cnt / 40)` with
`cnt = ids.length`; `(cnt + 39) / 40` is that ceiling in natural-number
division).  `view` gives each id's detail response, `remote` the
enumeration a full backup would fetch. -/
def backupOneFavIncr (favId : Nat) (ids : List String)
    (view : String → Option ViewResp) (remote : RemoteFull)
    (st : EngineState) : EngineState × Option SyncError :=
  if (incrCandidates favId ids st).length > (ids.length + 39) / 40 then
    backupOneFavFull favId remote st
  else
    incrNoEscalate favId ids view st

/-- C4: the incremental candidate set is the fetched ids minus the
mirrored ids minus the negative-cache ids, and the pass escalates to
full sync — returning its result, which consults no per-item detail
oracle — exactly when the number of candidates strictly exceeds
`ceil(ids.length / 40)`. -/
theorem incr_escalation_threshold (favId : Nat) (ids : List String)
    (view view' : String → Option ViewResp) (remote : RemoteFull)
    (st : EngineState) :
    incrCandidates favId ids st
      = ids.filter (fun b => (favMirror st favId b).isNone && !st.invalidIds b) ∧
    ((incrCandidates favId ids st).length > (ids.length + 39) / 40 →
      backupOneFavIncr favId ids view remote st = backupOneFavFull favId remote st ∧
      backupOneFavIncr favId ids view remote st
        = backupOneFavIncr favId ids view' remote st) ∧
    ((incrCandidates favId ids st).length ≤ (ids.length + 39) / 40 →
      backupOneFavIncr favId ids view remote st
        = incrNoEscalate favId ids view st) := by
  refine ⟨rfl, ?_, ?_⟩
  · intro h
    constructor <;> simp [backupOneFavIncr, h]
  · intro h
    simp [backupOneFavIncr, Nat.not_lt.mpr h]

/-- Membership in the incremental candidate set means the id is neither
mirrored nor negatively cached. -/
theorem mem_incrCandidates (favId : Nat) (ids : List String)
    (st : EngineState) (b : String) (h : b ∈ incrCandidates favId ids st) :
    favMirror st favId b = none ∧ st.invalidIds b = false := by
  simp only [incrCandidates, List.mem_filter, Bool.and_eq_true,
    Option.isNone_iff_eq_none, Bool.not_eq_true'] at h
  exact ⟨h.2.1, h.2.2⟩

theorem incrStep_inserts_view_none (view : String → Option ViewResp)
    (acc : IncrAcc) (c : String) (hv : view c = none) :
    (incrStep view acc c).inserts = acc.inserts := by
  simp [incrStep, hv]

theorem incrStep_inserts_detail_err (view : String → Option ViewResp)
    (acc : IncrAcc) (c : String) (resp : ViewResp) (er : DetailError)
    (hv : view c = some resp) (hg : getMediaInfo resp = Except.error er) :
    (incrStep view acc c).inserts = acc.inserts := by
  simp [incrStep, hv, hg]

theorem incrStep_inserts_unavailable (view : String → Option ViewResp)
    (acc : IncrAcc) (c : String) (resp : ViewResp) (mi : Media)
    (hv : view c = some resp) (hg : getMediaInfo resp = Except.ok mi)
    (ha : ¬mi.attr = 0) :
    (incrStep view acc c).inserts = acc.inserts := by
  simp [incrStep, hv, hg, ha]

theorem incrStep_inserts_active (view : String → Option ViewResp)
    (acc : IncrAcc) (c : String) (resp : ViewResp) (mi : Media)
    (hv : view c = some resp) (hg : getMediaInfo resp = Except.ok mi)
    (ha : mi.attr = 0) :
    (incrStep view acc c).inserts
      = fun x => if x = c then some mi else acc.inserts x := by
  simp [incrStep, hv, hg, ha]

/-- Provenance of the incremental loop's staged insertions: an entry
either was staged before the loop or belongs to a candidate whose
detail fetch succeeded with an intact (`attr = 0`) record. -/
theorem incrLoop_inserts_spec (view : String → Option ViewResp)
    (cands : List String) (acc : IncrAcc) (b : String) :
    (cands.foldl (incrStep view) acc).inserts b = acc.inserts b ∨
    (b ∈ cands ∧ ∃ resp mi, view b = some resp ∧
      getMediaInfo resp = Except.ok mi ∧ mi.attr = 0 ∧
      (cands.foldl (incrStep view) acc).inserts b = some mi) := by
  induction cands generalizing acc with
  | nil => exact Or.inl rfl
  | cons c cs ih =>
      simp only [List.foldl_cons]
      have hstep : (incrStep view acc c).inserts b = acc.inserts b ∨
          (b = c ∧ ∃ resp mi, view b = some resp ∧
            getMediaInfo resp = Except.ok mi ∧ mi.attr = 0 ∧
            (incrStep view acc c).inserts b = some mi) := by
        cases hv : view c with
        | none => exact Or.inl (by rw [incrStep_inserts_view_none view acc c hv])
        | some resp =>
            cases hg : getMediaInfo resp with
            | error e =>
                exact Or.inl
                  (by rw [incrStep_inserts_detail_err view acc c resp e hv hg])
            | ok mi =>
                by_cases ha : mi.attr = 0
                · by_cases hb : b = c
                  · subst hb
                    refine Or.inr ⟨rfl, resp, mi, hv, hg, ha, ?_⟩
                    rw [incrStep_inserts_active view acc b resp mi hv hg ha]
                    simp
                  · refine Or.inl ?_
                    rw [incrStep_inserts_active view acc c resp mi hv hg ha]
                    simp [hb]
                · exact Or.inl
                    (by rw [incrStep_inserts_unavailable view acc c resp mi hv hg ha])
      rcases ih (incrStep view acc c) with h1 | h1
      · rw [h1]
        rcases hstep with h2 | ⟨hbc, resp, mi, hv, hg, ha, hins⟩
        · exact Or.inl h2
        · exact Or.inr ⟨by rw [hbc]; exact List.mem_cons_self c cs,
            resp, mi, hv, hg, ha, hins⟩
      · exact Or.inr ⟨List.mem_cons_of_mem c h1.1, h1.2⟩

/-- C5: an incremental pass that does not escalate never deletes and
never modifies an existing mirror entry of the synced collection — the
resulting mirror map is the spread merge of the prior map with the
staged insertions, every staged insertion is for a previously absent id
and carries an intact (`attr = 0`) record, and every previously present
record survives unchanged. -/
theorem incr_union_no_deletion (favId : Nat) (ids : List String)
    (view : String → Option ViewResp) (remote : RemoteFull)
    (st st' : EngineState) (e : Option SyncError)
    (hno : (incrCandidates favId ids st).length ≤ (ids.length + 39) / 40)
    (h : backupOneFavIncr favId ids view remote st = (st', e)) :
    (∀ b, favMirror st' favId b
        = spreadMerge (favMirror st favId)
            ((incrLoop view st.invalidIds (incrCandidates favId ids st)).inserts) b) ∧
    (∀ b m,
        (incrLoop view st.invalidIds (incrCandidates favId ids st)).inserts b = some m →
        favMirror st favId b = none ∧ m.attr = 0) ∧
    (∀ b r, favMirror st favId b = some r → favMirror st' favId b = some r) := by
  rw [backupOneFavIncr, if_neg (Nat.not_lt.mpr hno)] at h
  have hst : st' = (incrNoEscalate favId ids view st).1 :=
    (congrArg Prod.fst h).symm
  have hmir : ∀ b, favMirror st' favId b
      = spreadMerge (favMirror st favId)
          ((incrLoop view st.invalidIds (incrCandidates favId ids st)).inserts) b := by
    intro b
    rw [hst]
    simp [incrNoEscalate, favMirror]
  have hprov : ∀ b m,
      (incrLoop view st.invalidIds (incrCandidates favId ids st)).inserts b = some m →
      favMirror st favId b = none ∧ m.attr = 0 := by
    intro b m hins
    rcases incrLoop_inserts_spec view (incrCandidates favId ids st)
        { inserts := fun _ => none, invalid := st.invalidIds, errorIds := [] } b with
      h1 | ⟨hmem, resp, mi, _, _, ha, hval⟩
    · rw [incrLoop] at hins
      rw [h1] at hins
      exact absurd hins (by simp)
    · rw [incrLoop] at hins
      rw [hval] at hins
      obtain rfl : mi = m := Option.some.injEq .. ▸ hins
      exact ⟨(mem_incrCandidates favId ids st b hmem).1, ha⟩
  refine ⟨hmir, hprov, ?_⟩
  intro b r hr
  rw [hmir b, spreadMerge]
  cases hi : (incrLoop view st.invalidIds (incrCandidates favId ids st)).inserts b with
  | none => simpa using hr
  | some m =>
      have := (hprov b m hi).1
      rw [this] at hr
      exact absurd hr (by simp)

/-- Fixture: 400 fetched ids (declared size 400, ten pages), of which
exactly the 11 single-character ids are unmirrored candidates. -/
def ids400 : List String := "a" :: (List.range 399).map (fun i => toString i)

/-- Fixture: a state whose collection 1 mirrors every id of two or more
characters and whose negative cache is empty. -/
def st400 : EngineState :=
  { backedUpFavs := fun d =>
      if d = 1 then some (fun b => if 2 ≤ b.length then some { attr := 0 } else none)
      else none
    invalidIds := fun _ => false
    favlist := []
    lastFullBackupTime := none }

set_option maxRecDepth 10000 in
theorem incr_escalation_threshold_witness :
    (incrCandidates 1 ids400 st400).length > (ids400.length + 39) / 40 ∧
    backupOneFavIncr 1 ids400 (fun _ => none) remoteTest st400
      = backupOneFavFull 1 remoteTest st400 :=
  ⟨by decide,
    ((incr_escalation_threshold 1 ids400 (fun _ => none) (fun _ => none)
        remoteTest st400).2.1 (by decide)).1⟩

/-- Fixture: detail responses for the incremental witness — id `bk3`
resolves to an intact record, everything else fails. -/
def viewTest : String → Option ViewResp :=
  fun b =>
    if b = "bk3" then
      some { code := 0,
             data := some { bvid := "bk3", aid := 30, title := "t3",
                            owner := some { mid := 5, name := "up5" } } }
    else none

theorem incr_union_no_deletion_witness :
    (incrCandidates 1 ["bk2", "bk3"] stTest).length
        ≤ ((["bk2", "bk3"] : List String).length + 39) / 40 ∧
    ((∀ b, favMirror (backupOneFavIncr 1 ["bk2", "bk3"] viewTest remoteTest stTest).1 1 b
        = spreadMerge (favMirror stTest 1)
            ((incrLoop viewTest stTest.invalidIds
                (incrCandidates 1 ["bk2", "bk3"] stTest)).inserts) b) ∧
      (∀ b m,
          (incrLoop viewTest stTest.invalidIds
              (incrCandidates 1 ["bk2", "bk3"] stTest)).inserts b = some m →
          favMirror stTest 1 b = none ∧ m.attr = 0) ∧
      (∀ b r, favMirror stTest 1 b = some r →
          favMirror (backupOneFavIncr 1 ["bk2", "bk3"] viewTest remoteTest stTest).1 1 b
            = some r)) :=
  ⟨by decide,
    incr_union_no_deletion 1 ["bk2", "bk3"] viewTest remoteTest stTest
      (backupOneFavIncr 1 ["bk2", "bk3"] viewTest remoteTest stTest).1
      (backupOneFavIncr 1 ["bk2", "bk3"] viewTest remoteTest stTest).2
      (by decide) rfl⟩

/-! ## Sweeps over all collections -/

/-- Failure condition of a full sync, determined by the remote
enumeration alone: nothing accumulated although the declared count is
nonzero. -/
def fullSyncFails (remote : RemoteFull) : Prop :=
  remote.mediaList = [] ∧ 0 < remote.declaredCount

instance (remote : RemoteFull) : Decidable (fullSyncFails remote) :=
  inferInstanceAs (Decidable (_ ∧ _))

/-- The registry refresh performed at the start of the full sweep:
store the fresh `favlist` and delete the mirror entry of every
collection whose id is absent from it. -/
def registryPrune (favlist : List Fav) (st : EngineState) : EngineState :=
  { st with
      favlist := favlist
      backedUpFavs := fun d =>
        if favlist.any (fun f => f.id == d) then st.backedUpFavs d else none }

/-- The shared per-collection loop of both sweeps: apply the
per-collection operation to each registry entry in order, catching a
thrown error and counting it instead of aborting the remaining
entries. -/
def sweepLoop (op : Fav → EngineState → EngineState × Option SyncError)
    (favs : List Fav) (st : EngineState) : EngineState × Nat :=
  favs.foldl
    (fun acc fav =>
      ((op fav acc.1).1, if (op fav acc.1).2.isSome then acc.2 + 1 else acc.2))
    (st, 0)

/-- `backupAllFavsFull(mid)`: store the fresh registry, run the
deletion cascade, full-sync every collection with failures caught and
counted, and advance the last-full-backup timestamp only when no
collection failed.  The Bool is false exactly when the sweep throws its
aggregate error. -/
def backupAllFavsFull (remoteOf : Nat → RemoteFull) (favlist : List Fav)
    (now : Nat) (st : EngineState) : EngineState × Bool :=
  let r := sweepLoop (fun fav s => backupOneFavFull fav.id (remoteOf fav.id) s)
      favlist (registryPrune favlist st)
  if r.2 = 0 then ({ r.1 with lastFullBackupTime := some now }, true)
  else (r.1, false)

/-- `backupAllFavsIncr(mid)`: store the fresh registry and sync every
collection incrementally with failures caught and counted; no deletion
cascade runs and the last-full-backup timestamp is never written.  The
Bool is false exactly when the sweep throws its aggregate error. -/
def backupAllFavsIncr (idsOf : Nat → List String)
    (view : String → Option ViewResp) (remoteOf : Nat → RemoteFull)
    (favlist : List Fav) (st : EngineState) : EngineState × Bool :=
  let r := sweepLoop
      (fun fav s => backupOneFavIncr fav.id (idsOf fav.id) view (remoteOf fav.id) s)
      favlist { st with favlist := favlist }
  (r.1, decide (r.2 = 0))

/-- Frame property of a full sync: other collections' entries are
untouched. -/
theorem backupOneFavFull_frame (favId d : Nat) (remote : RemoteFull)
    (st : EngineState) (hne : d ≠ favId) :
    (backupOneFavFull favId remote st).1.backedUpFavs d = st.backedUpFavs d := by
  by_cases hg : remote.mediaList = [] ∧ 0 < remote.declaredCount <;>
    simp [backupOneFavFull, hg, hne]

/-- Frame property of an incremental sync: other collections' entries
are untouched (on the escalation path via the full-sync frame). -/
theorem backupOneFavIncr_frame (favId d : Nat) (ids : List String)
    (view : String → Option ViewResp) (remote : RemoteFull)
    (st : EngineState) (hne : d ≠ favId) :
    (backupOneFavIncr favId ids view remote st).1.backedUpFavs d
      = st.backedUpFavs d := by
  by_cases hesc : (incrCandidates favId ids st).length > (ids.length + 39) / 40
  · rw [backupOneFavIncr, if_pos hesc]
    exact backupOneFavFull_frame favId d remote st hne
  · rw [backupOneFavIncr, if_neg hesc]
    simp [incrNoEscalate, hne]

/-- A full sync never writes the last-full-backup timestamp. -/
theorem backupOneFavFull_time (favId : Nat) (remote : RemoteFull)
    (st : EngineState) :
    (backupOneFavFull favId remote st).1.lastFullBackupTime
      = st.lastFullBackupTime := by
  by_cases hg : remote.mediaList = [] ∧ 0 < remote.declaredCount <;>
    simp [backupOneFavFull, hg]

/-- An incremental sync never writes the last-full-backup timestamp. -/
theorem backupOneFavIncr_time (favId : Nat) (ids : List String)
    (view : String → Option ViewResp) (remote : RemoteFull)
    (st : EngineState) :
    (backupOneFavIncr favId ids view remote st).1.lastFullBackupTime
      = st.lastFullBackupTime := by
  by_cases hesc : (incrCandidates favId ids st).length > (ids.length + 39) / 40
  · rw [backupOneFavIncr, if_pos hesc]
    exact backupOneFavFull_time favId remote st
  · rw [backupOneFavIncr, if_neg hesc]
    simp [incrNoEscalate]

/-- A full sync fails exactly when its remote enumeration is anomalous,
independently of the stored state. -/
theorem backupOneFavFull_err_iff (favId : Nat) (remote : RemoteFull)
    (st : EngineState) :
    (backupOneFavFull favId remote st).2.isSome = true ↔ fullSyncFails remote := by
  by_cases hg : remote.mediaList = [] ∧ 0 < remote.declaredCount <;>
    simp [backupOneFavFull, fullSyncFails, hg]

/-- A non-anomalous full sync stores the staged map for its
collection. -/
theorem backupOneFavFull_sets (favId : Nat) (remote : RemoteFull)
    (st : EngineState) (h : ¬fullSyncFails remote) :
    (backupOneFavFull favId remote st).1.backedUpFavs favId
      = some (stageFull (favMirror st favId) remote.mediaList) := by
  have hg : ¬(remote.mediaList = [] ∧ 0 < remote.declaredCount) := h
  rw [backupOneFavFull, if_neg hg]
  simp

theorem sweepLoop_shift (op : Fav → EngineState → EngineState × Option SyncError)
    (favs : List Fav) (st : EngineState) (n : Nat) :
    favs.foldl
        (fun acc fav =>
          ((op fav acc.1).1, if (op fav acc.1).2.isSome then acc.2 + 1 else acc.2))
        (st, n)
      = ((sweepLoop op favs st).1, n + (sweepLoop op favs st).2) := by
  induction favs generalizing st n with
  | nil => simp [sweepLoop]
  | cons f fs ih =>
      rw [sweepLoop, List.foldl_cons, List.foldl_cons]
      rw [ih ((op f st).1) (if (op f st).2.isSome then n + 1 else n)]
      rw [ih ((op f st).1) (if (op f st).2.isSome then 0 + 1 else 0)]
      by_cases he : (op f st).2.isSome <;> simp [he] <;> omega

theorem sweepLoop_cons (op : Fav → EngineState → EngineState × Option SyncError)
    (f : Fav) (fs : List Fav) (st : EngineState) :
    sweepLoop op (f :: fs) st
      = ((sweepLoop op fs (op f st).1).1,
          (if (op f st).2.isSome then 1 else 0) + (sweepLoop op fs (op f st).1).2) := by
  rw [sweepLoop, List.foldl_cons]
  rw [sweepLoop_shift op fs ((op f st).1) (if (op f st).2.isSome then 0 + 1 else 0)]

theorem sweepLoop_append (op : Fav → EngineState → EngineState × Option SyncError)
    (l1 l2 : List Fav) (st : EngineState) :
    sweepLoop op (l1 ++ l2) st
      = ((sweepLoop op l2 (sweepLoop op l1 st).1).1,
          (sweepLoop op l1 st).2 + (sweepLoop op l2 (sweepLoop op l1 st).1).2) := by
  induction l1 generalizing st with
  | nil => simp [sweepLoop]
  | cons f fs ih =>
      rw [List.cons_append, sweepLoop_cons, sweepLoop_cons, ih]
      simp [Nat.add_assoc]

theorem sweepLoop_frame (op : Fav → EngineState → EngineState × Option SyncError)
    (favs : List Fav) (st : EngineState) (d : Nat)
    (hop : ∀ fav ∈ favs, ∀ s, (op fav s).1.backedUpFavs d = s.backedUpFavs d) :
    (sweepLoop op favs st).1.backedUpFavs d = st.backedUpFavs d := by
  induction favs generalizing st with
  | nil => simp [sweepLoop]
  | cons f fs ih =>
      rw [sweepLoop_cons]
      have h1 := ih ((op f st).1) (fun fav hm s => hop fav (List.mem_cons_of_mem f hm) s)
      rw [h1, hop f (List.mem_cons_self f fs) st]

theorem sweepLoop_time (op : Fav → EngineState → EngineState × Option SyncError)
    (favs : List Fav) (st : EngineState)
    (hop : ∀ fav s, (op fav s).1.lastFullBackupTime = s.lastFullBackupTime) :
    (sweepLoop op favs st).1.lastFullBackupTime = st.lastFullBackupTime := by
  induction favs generalizing st with
  | nil => simp [sweepLoop]
  | cons f fs ih =>
      rw [sweepLoop_cons]
      rw [ih ((op f st).1), hop f st]

theorem sweepLoop_count_zero (op : Fav → EngineState → EngineState × Option SyncError)
    (favs : List Fav) (st : EngineState) (p : Fav → Prop)
    (hop : ∀ fav s, (op fav s).2.isSome = true ↔ p fav) :
    ((sweepLoop op favs st).2 = 0 ↔ ∀ fav ∈ favs, ¬p fav) := by
  induction favs generalizing st with
  | nil => simp [sweepLoop]
  | cons f fs ih =>
      rw [sweepLoop_cons]
      cases hb : (op f st).2.isSome with
      | true =>
          have hpf : p f := (hop f st).mp hb
          constructor
          · intro h
            have h1 : (1 : Nat) + (sweepLoop op fs (op f st).1).2 = 0 := by
              simpa using h
            omega
          · intro hall
            exact absurd hpf (hall f (List.mem_cons_self f fs))
      | false =>
          have hnp : ¬p f := by
            intro hpf
            have hcon := (hop f st).mpr hpf
            rw [hb] at hcon
            exact Bool.false_ne_true hcon
          have hrec := ih ((op f st).1)
          constructor
          · intro h fav hm
            rcases List.mem_cons.mp hm with rfl | hm2
            · exact hnp
            · have hz : (sweepLoop op fs (op f st).1).2 = 0 := by simpa using h
              exact hrec.mp hz fav hm2
          · intro hall
            have hz : (sweepLoop op fs (op f st).1).2 = 0 :=
              hrec.mpr (fun fav hm => hall fav (List.mem_cons_of_mem f hm))
            simpa using hz

/-- C7: per-collection failures during a sweep are caught and counted —
the loop over a registry decomposes over list concatenation, so a
failing collection never aborts the remaining ones; the full sweep
reports success exactly when no collection failed; the last-full-backup
checkpoint is written on success and left untouched on failure; the
incremental sweep never advances it; and with distinct registry ids
every non-failing collection's full-sync write is committed in the
final state even when sibling collections fail. -/
theorem sweep_failure_isolation (remoteOf : Nat → RemoteFull)
    (idsOf : Nat → List String) (view : String → Option ViewResp)
    (favlist l1 l2 : List Fav) (now : Nat) (st : EngineState)
    (op : Fav → EngineState → EngineState × Option SyncError) :
    (sweepLoop op (l1 ++ l2) st
      = ((sweepLoop op l2 (sweepLoop op l1 st).1).1,
          (sweepLoop op l1 st).2 + (sweepLoop op l2 (sweepLoop op l1 st).1).2)) ∧
    ((backupAllFavsFull remoteOf favlist now st).2 = true ↔
      ∀ fav ∈ favlist, ¬fullSyncFails (remoteOf fav.id)) ∧
    ((backupAllFavsFull remoteOf favlist now st).2 = true →
      (backupAllFavsFull remoteOf favlist now st).1.lastFullBackupTime = some now) ∧
    ((backupAllFavsFull remoteOf favlist now st).2 = false →
      (backupAllFavsFull remoteOf favlist now st).1.lastFullBackupTime
        = st.lastFullBackupTime) ∧
    ((backupAllFavsIncr idsOf view remoteOf favlist st).1.lastFullBackupTime
      = st.lastFullBackupTime) ∧
    ((favlist.map Fav.id).Nodup →
      ∀ fav ∈ favlist, ¬fullSyncFails (remoteOf fav.id) →
      ((backupAllFavsFull remoteOf favlist now st).1.backedUpFavs fav.id).isSome
        = true) := by
  have hb : (backupAllFavsFull remoteOf favlist now st).2 = true ↔
      (sweepLoop (fun fav s => backupOneFavFull fav.id (remoteOf fav.id) s)
        favlist (registryPrune favlist st)).2 = 0 := by
    by_cases hz : (sweepLoop (fun fav s => backupOneFavFull fav.id (remoteOf fav.id) s)
        favlist (registryPrune favlist st)).2 = 0 <;>
      simp [backupAllFavsFull, hz]
  have hcount := sweepLoop_count_zero
    (fun fav s => backupOneFavFull fav.id (remoteOf fav.id) s)
    favlist (registryPrune favlist st)
    (fun fav => fullSyncFails (remoteOf fav.id))
    (fun fav s => backupOneFavFull_err_iff fav.id (remoteOf fav.id) s)
  refine ⟨sweepLoop_append op l1 l2 st, hb.trans hcount, ?_, ?_, ?_, ?_⟩
  · intro h2
    have hz := hb.mp h2
    simp [backupAllFavsFull, hz]
  · intro h2
    have hz : ¬(sweepLoop (fun fav s => backupOneFavFull fav.id (remoteOf fav.id) s)
        favlist (registryPrune favlist st)).2 = 0 := by
      intro hz
      have ht := hb.mpr hz
      rw [ht] at h2
      exact absurd h2 (by decide)
    simp only [backupAllFavsFull, if_neg hz]
    rw [sweepLoop_time _ favlist _
      (fun fav s => backupOneFavFull_time fav.id (remoteOf fav.id) s)]
    rfl
  · show (sweepLoop
        (fun fav s => backupOneFavIncr fav.id (idsOf fav.id) view (remoteOf fav.id) s)
        favlist { st with favlist := favlist }).1.lastFullBackupTime
      = st.lastFullBackupTime
    rw [sweepLoop_time _ favlist _
      (fun fav s => backupOneFavIncr_time fav.id (idsOf fav.id) view (remoteOf fav.id) s)]
  · intro hnd fav hmem hok
    obtain ⟨s, t, rfl⟩ := List.append_of_mem hmem
    have hmir : (backupAllFavsFull remoteOf (s ++ fav :: t) now st).1.backedUpFavs
        = (sweepLoop (fun g s2 => backupOneFavFull g.id (remoteOf g.id) s2)
            (s ++ fav :: t) (registryPrune (s ++ fav :: t) st)).1.backedUpFavs := by
      by_cases hz : (sweepLoop (fun g s2 => backupOneFavFull g.id (remoteOf g.id) s2)
          (s ++ fav :: t) (registryPrune (s ++ fav :: t) st)).2 = 0 <;>
        simp [backupAllFavsFull, hz]
    rw [hmir, sweepLoop_append, sweepLoop_cons]
    have hnotmem : fav.id ∉ t.map Fav.id := by
      rw [List.map_append, List.map_cons] at hnd
      exact (List.nodup_cons.mp (hnd.of_append_right)).1
    have hfr : ∀ g ∈ t, ∀ s2,
        ((fun g s2 => backupOneFavFull g.id (remoteOf g.id) s2) g s2).1.backedUpFavs fav.id
          = s2.backedUpFavs fav.id := by
      intro g hg s2
      refine backupOneFavFull_frame g.id fav.id (remoteOf g.id) s2 ?_
      intro he
      exact hnotmem (he ▸ List.mem_map_of_mem Fav.id hg)
    rw [sweepLoop_frame _ t _ fav.id hfr]
    rw [backupOneFavFull_sets fav.id (remoteOf fav.id) _ hok]
    rfl

/-- Fixture: a registry entry whose full sync fails (anomalous remote). -/
def favBad : Fav := { id := 2, cnt := 5, mid := 0, title := "bad" }

/-- Fixture: a registry entry whose full sync succeeds. -/
def favGood : Fav := { id := 1, cnt := 2, mid := 0, title := "good" }

/-- Fixture: a registry with one failing and one succeeding collection. -/
def favlistW : List Fav := [favBad, favGood]

/-- Fixture: remote enumerations — collection 1 enumerates normally,
every other collection returns the anomalous empty page set against a
declared count of 5. -/
def remoteOfW : Nat → RemoteFull :=
  fun d => if d = 1 then remoteTest else { mediaList := [], declaredCount := 5 }

theorem sweep_failure_isolation_witness :
    ((backupAllFavsFull remoteOfW favlistW 777 stTest).2 = false ∧
      (favlistW.map Fav.id).Nodup ∧ favGood ∈ favlistW ∧
      ¬fullSyncFails (remoteOfW favGood.id)) ∧
    ((backupAllFavsFull remoteOfW favlistW 777 stTest).1.lastFullBackupTime
        = stTest.lastFullBackupTime ∧
      ((backupAllFavsFull remoteOfW favlistW 777 stTest).1.backedUpFavs
          favGood.id).isSome = true) :=
  ⟨⟨by decide, by decide, by decide, by decide⟩,
    ⟨(sweep_failure_isolation remoteOfW (fun _ => []) (fun _ => none) favlistW
        [] [] 777 stTest
        (fun f s => backupOneFavFull f.id (remoteOfW f.id) s)).2.2.2.1 (by decide),
      (sweep_failure_isolation remoteOfW (fun _ => []) (fun _ => none) favlistW
        [] [] 777 stTest
        (fun f s => backupOneFavFull f.id (remoteOfW f.id) s)).2.2.2.2.2
        (by decide) favGood (by decide) (by decide)⟩⟩

/-- C8 counterexample: the incremental sweep runs no deletion
cascade — sweeping a registry that does not contain collection 1 over a
state that still mirrors collection 1 leaves that stale mirror entry in
place, although the claim requires it to be deleted after either
sweep. -/
theorem incr_sweep_keeps_stale_mirror :
    (([{ id := 3, cnt := 0, mid := 0, title := "x" }] : List Fav).all
        (fun f => f.id != 1)) = true ∧
    ((backupAllFavsIncr (fun _ => []) (fun _ => none) (fun _ => remoteTest)
        [{ id := 3, cnt := 0, mid := 0, title := "x" }] stTest).1.backedUpFavs
        1).isSome = true := by
  constructor
  · decide
  · rfl

/-- C8 (amended): the deletion cascade runs before the full-sync sweep
only — after a full sweep no mirror entry exists for a collection
absent from the fresh registry, while the incremental sweep leaves the
mirror entries of absent collections exactly as they were (stale
entries persist until the next full sweep). -/
theorem registry_prune_full_sweep_only (remoteOf : Nat → RemoteFull)
    (idsOf : Nat → List String) (view : String → Option ViewResp)
    (favlist : List Fav) (now : Nat) (st : EngineState) (d : Nat)
    (habs : ∀ fav ∈ favlist, fav.id ≠ d) :
    (backupAllFavsFull remoteOf favlist now st).1.backedUpFavs d = none ∧
    (backupAllFavsIncr idsOf view remoteOf favlist st).1.backedUpFavs d
      = st.backedUpFavs d := by
  constructor
  · have hmir : (backupAllFavsFull remoteOf favlist now st).1.backedUpFavs
        = (sweepLoop (fun g s2 => backupOneFavFull g.id (remoteOf g.id) s2)
            favlist (registryPrune favlist st)).1.backedUpFavs := by
      by_cases hz : (sweepLoop (fun g s2 => backupOneFavFull g.id (remoteOf g.id) s2)
          favlist (registryPrune favlist st)).2 = 0 <;>
        simp [backupAllFavsFull, hz]
    rw [hmir]
    rw [sweepLoop_frame _ favlist _ d
      (fun g hg s2 => backupOneFavFull_frame g.id d (remoteOf g.id) s2
        (fun he => habs g hg he.symm))]
    have hany : favlist.any (fun f => f.id == d) = false := by
      rw [List.any_eq_false]
      intro f hf
      simp only [beq_iff_eq]
      exact habs f hf
    simp only [registryPrune]
    rw [hany]
    simp
  · show (sweepLoop
        (fun fav s => backupOneFavIncr fav.id (idsOf fav.id) view (remoteOf fav.id) s)
        favlist { st with favlist := favlist }).1.backedUpFavs d
      = st.backedUpFavs d
    rw [sweepLoop_frame _ favlist _ d
      (fun g hg s2 => backupOneFavIncr_frame g.id d (idsOf g.id) view (remoteOf g.id) s2
        (fun he => habs g hg he.symm))]

theorem registry_prune_full_sweep_only_witness :
    (∀ fav ∈ favlistW, fav.id ≠ 9) ∧
    ((backupAllFavsFull remoteOfW favlistW 777 stTest).1.backedUpFavs 9 = none ∧
      (backupAllFavsIncr (fun _ => []) (fun _ => none) remoteOfW favlistW
          stTest).1.backedUpFavs 9 = stTest.backedUpFavs 9) :=
  ⟨by decide,
    registry_prune_full_sweep_only remoteOfW (fun _ => []) (fun _ => none)
      favlistW 777 stTest 9 (by decide)⟩

/-- C10: syncing one collection never touches another collection's
backup — both full and incremental sync of collection `favId` carry the
mirror entry stored under every other id `d` over verbatim. -/
theorem sync_one_collection_frame (favId d : Nat) (remote : RemoteFull)
    (ids : List String) (view : String → Option ViewResp)
    (st : EngineState) (hne : d ≠ favId) :
    (backupOneFavFull favId remote st).1.backedUpFavs d = st.backedUpFavs d ∧
    (backupOneFavIncr favId ids view remote st).1.backedUpFavs d
      = st.backedUpFavs d :=
  ⟨backupOneFavFull_frame favId d remote st hne,
    backupOneFavIncr_frame favId d ids view remote st hne⟩

theorem sync_one_collection_frame_witness :
    (2 : Nat) ≠ 1 ∧
    ((backupOneFavFull 1 remoteTest stTest).1.backedUpFavs 2
        = stTest.backedUpFavs 2 ∧
      (backupOneFavIncr 1 ["bk2", "bk3"] viewTest remoteTest stTest).1.backedUpFavs 2
        = stTest.backedUpFavs 2) :=
  ⟨by decide,
    sync_one_collection_frame 1 2 remoteTest ["bk2", "bk3"] viewTest stTest
      (by decide)⟩

/-! ## Negative-cache monotonicity and lookup suppression -/

theorem incrStep_invalid_mono (view : String → Option ViewResp)
    (acc : IncrAcc) (c b : String) (h : acc.invalid b = true) :
    (incrStep view acc c).invalid b = true := by
  cases hv : view c with
  | none =>
      have heq : (incrStep view acc c).invalid = acc.invalid := by
        simp [incrStep, hv]
      rw [heq]
      exact h
  | some resp =>
      cases hg : getMediaInfo resp with
      | error e =>
          have heq : (incrStep view acc c).invalid = acc.invalid := by
            simp [incrStep, hv, hg]
          rw [heq]
          exact h
      | ok mi =>
          by_cases ha : mi.attr = 0
          · have heq : (incrStep view acc c).invalid = acc.invalid := by
              simp [incrStep, hv, hg, ha]
            rw [heq]
            exact h
          · have heq : (incrStep view acc c).invalid
                = fun x => if x = c then true else acc.invalid x := by
              simp [incrStep, hv, hg, ha]
            rw [heq]
            by_cases hxc : b = c <;> simp [hxc, h]

theorem incrLoop_foldl_invalid_mono (view : String → Option ViewResp)
    (cands : List String) (acc : IncrAcc) (b : String)
    (h : acc.invalid b = true) :
    ((cands.foldl (incrStep view) acc).invalid b) = true := by
  induction cands generalizing acc with
  | nil => exact h
  | cons c cs ih =>
      rw [List.foldl_cons]
      exact ih (incrStep view acc c) (incrStep_invalid_mono view acc c b h)

theorem incrLoop_invalid_mono (view : String → Option ViewResp)
    (inv0 : String → Bool) (cands : List String) (b : String)
    (h : inv0 b = true) :
    (incrLoop view inv0 cands).invalid b = true :=
  incrLoop_foldl_invalid_mono view cands
    { inserts := fun _ => none, invalid := inv0, errorIds := [] } b h

theorem backupOneFavFull_invalid_mono (favId : Nat) (remote : RemoteFull)
    (st : EngineState) (b : String) (h : st.invalidIds b = true) :
    (backupOneFavFull favId remote st).1.invalidIds b = true := by
  by_cases hg : remote.mediaList = [] ∧ 0 < remote.declaredCount <;>
    simp [backupOneFavFull, hg, markInvalid, h]

theorem backupOneFavIncr_invalid_mono (favId : Nat) (ids : List String)
    (view : String → Option ViewResp) (remote : RemoteFull)
    (st : EngineState) (b : String) (h : st.invalidIds b = true) :
    (backupOneFavIncr favId ids view remote st).1.invalidIds b = true := by
  by_cases hesc : (incrCandidates favId ids st).length > (ids.length + 39) / 40
  · rw [backupOneFavIncr, if_pos hesc]
    exact backupOneFavFull_invalid_mono favId remote st b h
  · rw [backupOneFavIncr, if_neg hesc]
    show (incrLoop view st.invalidIds (incrCandidates favId ids st)).invalid b = true
    exact incrLoop_invalid_mono view st.invalidIds _ b h

theorem sweepLoop_invalid_mono (op : Fav → EngineState → EngineState × Option SyncError)
    (favs : List Fav) (st : EngineState) (b : String)
    (hop : ∀ fav s, s.invalidIds b = true → (op fav s).1.invalidIds b = true)
    (h : st.invalidIds b = true) :
    (sweepLoop op favs st).1.invalidIds b = true := by
  induction favs generalizing st with
  | nil => exact h
  | cons f fs ih =>
      rw [sweepLoop_cons]
      exact ih ((op f st).1) (hop f st h)

theorem backupAllFavsFull_invalid_mono (remoteOf : Nat → RemoteFull)
    (favlist : List Fav) (now : Nat) (st : EngineState) (b : String)
    (h : st.invalidIds b = true) :
    (backupAllFavsFull remoteOf favlist now st).1.invalidIds b = true := by
  have hloop := sweepLoop_invalid_mono
    (fun fav s => backupOneFavFull fav.id (remoteOf fav.id) s)
    favlist (registryPrune favlist st) b
    (fun fav s hs => backupOneFavFull_invalid_mono fav.id (remoteOf fav.id) s b hs)
    h
  by_cases hz : (sweepLoop (fun fav s => backupOneFavFull fav.id (remoteOf fav.id) s)
      favlist (registryPrune favlist st)).2 = 0 <;>
    simpa [backupAllFavsFull, hz] using hloop

theorem backupAllFavsIncr_invalid_mono (idsOf : Nat → List String)
    (view : String → Option ViewResp) (remoteOf : Nat → RemoteFull)
    (favlist : List Fav) (st : EngineState) (b : String)
    (h : st.invalidIds b = true) :
    (backupAllFavsIncr idsOf view remoteOf favlist st).1.invalidIds b = true :=
  sweepLoop_invalid_mono
    (fun fav s => backupOneFavIncr fav.id (idsOf fav.id) view (remoteOf fav.id) s)
    favlist { st with favlist := favlist } b
    (fun fav s hs =>
      backupOneFavIncr_invalid_mono fav.id (idsOf fav.id) view (remoteOf fav.id) s b hs)
    h

/-- One invocation of the engine: a per-collection full or incremental
backup, or one of the two sweeps over a registry. -/
inductive EngineOp where
  | oneFull (favId : Nat) (remote : RemoteFull)
  | oneIncr (favId : Nat) (ids : List String)
      (view : String → Option ViewResp) (remote : RemoteFull)
  | allFull (remoteOf : Nat → RemoteFull) (favlist : List Fav) (now : Nat)
  | allIncr (idsOf : Nat → List String) (view : String → Option ViewResp)
      (remoteOf : Nat → RemoteFull) (favlist : List Fav)

/-- The state left in storage by one engine invocation. -/
def applyOp : EngineOp → EngineState → EngineState
  | .oneFull favId remote, st => (backupOneFavFull favId remote st).1
  | .oneIncr favId ids view remote, st =>
      (backupOneFavIncr favId ids view remote st).1
  | .allFull remoteOf favlist now, st =>
      (backupAllFavsFull remoteOf favlist now st).1
  | .allIncr idsOf view remoteOf favlist, st =>
      (backupAllFavsIncr idsOf view remoteOf favlist st).1

/-- The state left in storage by a sequence of engine invocations. -/
def runOps (ops : List EngineOp) (st : EngineState) : EngineState :=
  ops.foldl (fun s op => applyOp op s) st

theorem applyOp_invalid_mono (op : EngineOp) (st : EngineState) (b : String)
    (h : st.invalidIds b = true) :
    (applyOp op st).invalidIds b = true := by
  cases op with
  | oneFull favId remote => exact backupOneFavFull_invalid_mono favId remote st b h
  | oneIncr favId ids view remote =>
      exact backupOneFavIncr_invalid_mono favId ids view remote st b h
  | allFull remoteOf favlist now =>
      exact backupAllFavsFull_invalid_mono remoteOf favlist now st b h
  | allIncr idsOf view remoteOf favlist =>
      exact backupAllFavsIncr_invalid_mono idsOf view remoteOf favlist st b h

theorem incrStep_view_agree (view1 view2 : String → Option ViewResp)
    (acc : IncrAcc) (c : String) (hc : view1 c = view2 c) :
    incrStep view1 acc c = incrStep view2 acc c := by
  unfold incrStep
  rw [hc]

theorem incrLoop_foldl_view_agree (view1 view2 : String → Option ViewResp)
    (cands : List String) (acc : IncrAcc) (b : String) (hb : b ∉ cands)
    (hagree : ∀ x, x ≠ b → view1 x = view2 x) :
    cands.foldl (incrStep view1) acc = cands.foldl (incrStep view2) acc := by
  induction cands generalizing acc with
  | nil => rfl
  | cons c cs ih =>
      have hnc : b ≠ c := fun he => hb (he ▸ List.mem_cons_self c cs)
      have hcs : b ∉ cs := fun hm => hb (List.mem_cons_of_mem c hm)
      rw [List.foldl_cons, List.foldl_cons,
        incrStep_view_agree view1 view2 acc c (hagree c (Ne.symm hnc))]
      exact ih (incrStep view2 acc c) hcs

/-- An id in the negative cache never reaches the candidate set. -/
theorem invalid_not_candidate (favId : Nat) (ids : List String)
    (st : EngineState) (b : String) (h : st.invalidIds b = true) :
    b ∉ incrCandidates favId ids st := by
  intro hmem
  have hfalse := (mem_incrCandidates favId ids st b hmem).2
  rw [h] at hfalse
  exact absurd hfalse (by decide)

theorem backupOneFavIncr_view_agree (favId : Nat) (ids : List String)
    (view1 view2 : String → Option ViewResp) (remote : RemoteFull)
    (st : EngineState) (b : String) (h : st.invalidIds b = true)
    (hagree : ∀ x, x ≠ b → view1 x = view2 x) :
    backupOneFavIncr favId ids view1 remote st
      = backupOneFavIncr favId ids view2 remote st := by
  by_cases hesc : (incrCandidates favId ids st).length > (ids.length + 39) / 40
  · rw [backupOneFavIncr, if_pos hesc, backupOneFavIncr, if_pos hesc]
  · rw [backupOneFavIncr, if_neg hesc, backupOneFavIncr, if_neg hesc]
    unfold incrNoEscalate
    rw [incrLoop, incrLoop,
      incrLoop_foldl_view_agree view1 view2 (incrCandidates favId ids st) _ b
        (invalid_not_candidate favId ids st b h) hagree]

/-- C6: the negative cache only grows — no engine operation (per
collection or sweep), and hence no sequence of them, removes an entry —
and once an id is cached, every later incremental pass filters it out
of the candidate set and never issues a detail lookup for it: the
pass's result does not depend on the detail oracle's value at that
id. -/
theorem negative_cache_monotone :
    (∀ op st b, st.invalidIds b = true → (applyOp op st).invalidIds b = true) ∧
    (∀ ops st b, st.invalidIds b = true → (runOps ops st).invalidIds b = true) ∧
    (∀ favId ids st b, st.invalidIds b = true →
      b ∉ incrCandidates favId ids st) ∧
    (∀ favId ids view1 view2 remote st b, st.invalidIds b = true →
      (∀ x, x ≠ b → view1 x = view2 x) →
      backupOneFavIncr favId ids view1 remote st
        = backupOneFavIncr favId ids view2 remote st) := by
  refine ⟨applyOp_invalid_mono, ?_, invalid_not_candidate, ?_⟩
  · intro ops
    induction ops with
    | nil => exact fun st b h => h
    | cons op rest ih =>
        intro st b h
        exact ih (applyOp op st) b (applyOp_invalid_mono op st b h)
  · intro favId ids view1 view2 remote st b h hagree
    exact backupOneFavIncr_view_agree favId ids view1 view2 remote st b h hagree

/-- Fixture: a state whose negative cache contains the id `dead`. -/
def stInv : EngineState :=
  { stTest with invalidIds := fun b => b == "dead" }

theorem negative_cache_monotone_witness :
    stInv.invalidIds "dead" = true ∧
    (applyOp (EngineOp.oneFull 1 remoteTest) stInv).invalidIds "dead" = true ∧
    "dead" ∉ incrCandidates 1 ["dead", "bk3"] stInv ∧
    backupOneFavIncr 1 ["dead", "bk3"] viewTest remoteTest stInv
      = backupOneFavIncr 1 ["dead", "bk3"]
          (fun x => if x = "dead" then some { code := -404 } else viewTest x)
          remoteTest stInv :=
  ⟨rfl,
    negative_cache_monotone.1 (EngineOp.oneFull 1 remoteTest) stInv "dead" rfl,
    negative_cache_monotone.2.2.1 1 ["dead", "bk3"] stInv "dead" rfl,
    negative_cache_monotone.2.2.2 1 ["dead", "bk3"] viewTest
      (fun x => if x = "dead" then some { code := -404 } else viewTest x)
      remoteTest stInv "dead" rfl
      (by
        intro x hx
        simp [hx])⟩
